import Mathlib

/-!
Shallow embedding of `tasks/utils.py` (general-purpose utilities for the
project's pyinvoke tasks) and verification of its specification claims.

Modelling conventions:
* `pathlib.Path` values are modelled as lists of path components
  (`Path := List String`); the `/` operator is list append of a component.
* Side effects are made explicit: functions that print return the list of
  printed items (`OutputLine`), functions that touch the filesystem take and
  return an explicit filesystem state, and fallible operations return
  `Option`/`Except`.
* Python regular expressions are modelled by a small `Regex` AST covering the
  constructs needed by the claims, with `re.match` (anchored-at-start,
  prefix-match) semantics and `re.DOTALL` (`.` also matches newline) built in;
  `$` matches at end of input or just before a trailing newline, as in Python
  without `re.MULTILINE`.
-/

namespace TasksUtils

/-- A filesystem path as its list of components (model of `pathlib.Path`). -/
abbrev Path := List String

/-- Embedding of `class ProjectInfo`: the five path-valued class attributes.
In the source these are class-level constants; every instance carries the
same values, so the record is fully determined. -/
structure ProjectInfo where
  source_directory : Path
  tests_directory : Path
  unit_tests_directory : Path
  integration_tests_directory : Path
  tasks_directory : Path
  reports_directory : Path
deriving Repr, DecidableEq

/-- Embedding of `PROJECT_INFO = ProjectInfo()`: the process-wide record.
`unit_tests_directory = tests_directory / "unit"` and
`integration_tests_directory = tests_directory / "integration"` exactly as in
the source. It is a Lean constant, so it is immutable by construction,
matching the source where it is built once at import time and never written. -/
def PROJECT_INFO : ProjectInfo :=
  let tests : Path := ["tests"]
  { source_directory := ["src"]
    tests_directory := tests
    unit_tests_directory := tests ++ ["unit"]
    integration_tests_directory := tests ++ ["integration"]
    tasks_directory := ["tasks"]
    reports_directory := ["reports"] }

/-! ### Filesystem model and `ensure_reports_dir` -/

/-- A filesystem state: the list of directories that currently exist. -/
abbrev DirState := List Path

/-- Create a single directory if it does not already exist (no error when it
does, as with `exist_ok=True`). -/
def insertDir (fs : DirState) (p : Path) : DirState :=
  if p ∈ fs then fs else fs ++ [p]

/-- The chain of ancestors of `p` ending with `p` itself (shortest first):
the directories `mkdir(parents=True)` brings into existence. -/
def pathPrefixes (p : Path) : List Path :=
  (List.range p.length).map (fun i => p.take (i + 1))

/-- Model of `Path.mkdir(parents=True, exist_ok=True)`: create every missing
ancestor and then the directory itself; existing directories are left alone. -/
def mkdirParentsExistOk (fs : DirState) (p : Path) : DirState :=
  (pathPrefixes p).foldl insertDir fs

/-- Embedding of `ensure_reports_dir`: ensures that the reports directory
exists, via `PROJECT_INFO.reports_directory.mkdir(parents=True, exist_ok=True)`. -/
def ensure_reports_dir (fs : DirState) : DirState :=
  mkdirParentsExistOk fs PROJECT_INFO.reports_directory

/-! ### `read_contents` -/

/-- Model of Python `str.rstrip("\n")`: remove every trailing newline
character from the end of the string. -/
def rstripNewlines (s : String) : String :=
  ⟨(s.data.reverse.dropWhile (fun c => c = '\n')).reverse⟩

/-- Embedding of `read_contents`. The file's bytes are presented as the
string `contents` (the `open` + `readlines` + `join` pipeline reproduces the
file's text verbatim); with `strip_newline` set, `contents.rstrip("\n")` is
returned, otherwise the contents unchanged. -/
def read_contents (contents : String) (strip_newline : Bool) : String :=
  if strip_newline then rstripNewlines contents else contents

/-! ### Regex model and `format_messages` -/

/-- Regular-expression AST: the fragment needed for the claims about
`format_messages` (literals, `.`, the `^` and `$` anchors, sequencing and
alternation). -/
inductive Regex where
  | emptyStr
  | char (c : Char)
  | dot
  | caret
  | dollar
  | seq (r s : Regex)
  | alt (r s : Regex)
deriving Repr, DecidableEq

/-- All end positions `j` such that the pattern matches `s` between positions
`i` and `j`. `.` matches any character (`re.DOTALL`); `$` matches at the end
of the input or immediately before a trailing newline (no `re.MULTILINE`). -/
def matchEnds (s : List Char) : Regex → Nat → List Nat
  | .emptyStr, i => [i]
  | .char c, i => if s.get? i = some c then [i + 1] else []
  | .dot, i => if i < s.length then [i + 1] else []
  | .caret, i => if i = 0 then [i] else []
  | .dollar, i =>
      if i = s.length ∨ (i + 1 = s.length ∧ s.get? i = some '\n') then [i] else []
  | .seq r t, i => (matchEnds s r i).flatMap (matchEnds s t)
  | .alt r t, i => matchEnds s r i ++ matchEnds s t i

/-- Declarative matching semantics: `RMatch s r i j` holds when pattern `r`
matches the characters of `s` from position `i` to position `j`. -/
inductive RMatch (s : List Char) : Regex → Nat → Nat → Prop where
  | emptyStr (i : Nat) : RMatch s .emptyStr i i
  | char (c : Char) (i : Nat) (h : s.get? i = some c) : RMatch s (.char c) i (i + 1)
  | dot (i : Nat) (h : i < s.length) : RMatch s .dot i (i + 1)
  | caret : RMatch s .caret 0 0
  | dollarEnd : RMatch s .dollar s.length s.length
  | dollarNewline (i : Nat) (h1 : i + 1 = s.length) (h2 : s.get? i = some '\n') :
      RMatch s .dollar i i
  | seq (r t : Regex) (i j k : Nat) (h1 : RMatch s r i j) (h2 : RMatch s t j k) :
      RMatch s (.seq r t) i k
  | altL (r t : Regex) (i j : Nat) (h : RMatch s r i j) : RMatch s (.alt r t) i j
  | altR (r t : Regex) (i j : Nat) (h : RMatch s t i j) : RMatch s (.alt r t) i j

/-- Model of the truthiness of `re.match(pattern, s, re.DOTALL)`: the pattern
matches some prefix of `s` starting at position 0. -/
def reMatch (pattern : Regex) (s : String) : Bool :=
  !(matchEnds s.data pattern 0).isEmpty

/-- The default `success_pattern = "^$"` of `format_messages`. -/
def defaultSuccessPattern : Regex := .seq .caret .dollar

/-- Terminal colors used via `click.secho`. -/
inductive Color where
  | green
  | red
deriving Repr, DecidableEq

/-- One printed item: either a colored `secho` line or a plain `print`. -/
inductive OutputLine where
  | secho (text : String) (fg : Color)
  | print (text : String)
deriving Repr, DecidableEq

/-- Embedding of `format_messages`: if `re.match(success_pattern, messages,
re.DOTALL)` succeeds, print the green success notice, otherwise print the raw
messages. The return value is the list of printed items. -/
def format_messages (messages : String) (success_pattern : Regex) :
    List OutputLine :=
  if reMatch success_pattern messages then
    [.secho "✔ No issues found." .green]
  else
    [.print messages]

/-! ### `print_header` -/

/-- Embedding of the module-level dict `_HEADER_LEVEL_CHARACTERS = {1: "#",
2: "=", 3: "-"}`; dict lookup is partial, hence `Option` (a missing key is a
`KeyError`). -/
def _HEADER_LEVEL_CHARACTERS (level : Int) : Option Char :=
  if level = 1 then some '#'
  else if level = 2 then some '='
  else if level = 3 then some '-'
  else none

/-- The `if icon: icon += " "` step of `print_header`: a nonempty icon gets a
single trailing space appended. -/
def headerIcon (icon : String) : String :=
  if icon ≠ "" then icon ++ " " else icon

/-- Model of `shutil.get_terminal_size((80, 20)).columns`: the detected
column count, falling back to 80 when the terminal size is undetectable. -/
def terminalColumns (detected : Option Nat) : Nat :=
  detected.getD 80

/-- The `padding_length` computation of `print_header`: 80 when the
`CIRCLECI` environment variable is set to a truthy (nonempty) string,
otherwise `max(columns - len(icon) * 2, 0)`. `icon` here is the icon after
the trailing-space append. -/
def headerPaddingLength (circleci : String) (detected : Option Nat) (icon : String) : Nat :=
  if circleci ≠ "" then 80
  else (max ((terminalColumns detected : Int) - (icon.length : Int) * 2) 0).toNat

/-- Model of Python centering `"{:c^n}".format(s)`: center `s` in a field of
width `n` filled with `c`; when padding is odd the extra fill goes on the
right; when `s` is at least `n` long, no fill is added. -/
def pyCenter (s : String) (fill : Char) (width : Nat) : String :=
  let pad := width - s.length
  let left := pad / 2
  (⟨List.replicate left fill⟩ : String) ++ s ++ (⟨List.replicate (pad - left) fill⟩ : String)

/-- ASCII uppercase of a string, modelling `str.upper()` (the source only
uppercases ASCII header texts). -/
def pyUpper (s : String) : String :=
  ⟨s.data.map Char.toUpper⟩

/-- Embedding of `print_header text level icon`. The ambient state is passed
explicitly: `circleci` is the value of the `CIRCLECI` environment variable
(`""` when unset) and `detected` the detectable terminal width. Returns the
string handed to `print`, or `none` when the border-character lookup fails
with a `KeyError` (which in the source happens before anything is printed). -/
def print_header (text : String) (level : Int) (icon : String)
    (circleci : String) (detected : Option Nat) : Option String :=
  let icon := headerIcon icon
  match _HEADER_LEVEL_CHARACTERS level with
  | none => none
  | some padding_character =>
    let padding_length := headerPaddingLength circleci detected icon
    let text := if level = 1 then pyUpper text else text
    some ("\n" ++ pyCenter (" " ++ icon ++ text ++ " " ++ icon) padding_character padding_length
      ++ "\n")

/-! ### `switch_python_version` -/

/-- Split a character list at every occurrence of `c`, keeping empty pieces:
model of Python `str.split` with a single-character separator. -/
def splitOnChar (c : Char) : List Char → List (List Char)
  | [] => [[]]
  | a :: as =>
    let r := splitOnChar c as
    if a = c then [] :: r
    else
      match r with
      | [] => [[a]]
      | g :: gs => (a :: g) :: gs

/-- The value of a list of decimal digit characters. -/
def digitsToNat (ds : List Char) : Nat :=
  ds.foldl (fun n c => n * 10 + (c.toNat - '0'.toNat)) 0

/-- Parse an unsigned run of digits; `none` unless the run is nonempty and
all digits. -/
def pyIntDigits (ds : List Char) : Option Int :=
  if ds ≠ [] ∧ ds.all Char.isDigit then some (digitsToNat ds : Int) else none

/-- Model of Python `int(s)` on version components: an optional sign followed
by at least one decimal digit; anything else raises `ValueError`, modelled as
`none`. (Surrounding whitespace and underscore separators, which `int`
also accepts, never occur in `pyenv` output and are not modelled.) -/
def pyInt (s : String) : Option Int :=
  match s.data with
  | '-' :: ds => (pyIntDigits ds).map (fun n => -n)
  | '+' :: ds => pyIntDigits ds
  | ds => pyIntDigits ds

/-- The sort key `lambda value: list(map(int, value.split(".")))` of
`switch_python_version`; `none` when some dot-separated component is not an
integer literal (the `ValueError` case). -/
def versionSortKey (value : String) : Option (List Int) :=
  (splitOnChar '.' value.data).mapM (fun comp => pyInt ⟨comp⟩)

/-- Compute the sort key of every listed version, failing if any key raises:
`sorted` evaluates the key function on each element before comparing. -/
def computeSortKeys : List String → Option (List (List Int))
  | [] => some []
  | v :: vs =>
    match versionSortKey v, computeSortKeys vs with
    | some k, some ks => some (k :: ks)
    | _, _ => none

/-- Python list comparison `a <= b` on integer-list sort keys: lexicographic
by components, with a strict prefix comparing below the longer list. -/
def keyLe : List Int → List Int → Bool
  | [], _ => true
  | _ :: _, [] => false
  | a :: as, b :: bs => if a < b then true else if b < a then false else keyLe as bs

/-- The ordering in which `sorted` arranges the version strings: compare the
numeric sort keys. Only invoked after every key is known to parse, so the
default `[]` of `getD` is never reached. -/
def versionLe (a b : String) : Prop :=
  keyLe ((versionSortKey a).getD []) ((versionSortKey b).getD []) = true

instance : DecidableRel versionLe := fun _ _ =>
  inferInstanceAs (Decidable (_ = true))

/-- Model of Python `full.startswith(pre)`. -/
def pyStartsWith (full pre : String) : Bool :=
  pre.data.isPrefixOf full.data

/-- Concatenate with a separator: model of `sep.join(...)`. -/
def joinSep (sep : String) : List String → String
  | [] => ""
  | [a] => a
  | a :: rest => a ++ sep ++ joinSep sep rest

/-- One iteration of the `for python_version in python_versions:` loop: a
matching version overwrites the accumulator and prints the green found
notice; a non-matching one changes nothing. -/
def findStep (version : String) (acc : Option String × List OutputLine) (pv : String) :
    Option String × List OutputLine :=
  if pyStartsWith pv version then
    (some pv,
      acc.2 ++ [.secho ("✔ Found pyenv Python version \x27" ++ pv ++ "\x27.\n") .green])
  else acc

/-- The outcome of a `switch_python_version` run that did not crash: what was
printed, whether the task raised the `Exit` termination signal (the spec's
"terminate the task with a failure indication" interface), and the external
deactivate/clean/set-version/reinstall command handed to `ctx.run`, if any. -/
structure SwitchResult where
  outputs : List OutputLine
  raisedExit : Bool
  command : Option String
deriving Repr, DecidableEq

/-- The nonempty lines of the captured `pyenv versions --bare` stdout:
`(_ for _ in ....stdout.split("\n") if _)`. -/
def pyenvLines (pyenvStdout : String) : List String :=
  ((splitOnChar '\n' pyenvStdout.data).map (fun l => (⟨l⟩ : String))).filter (fun l => l ≠ "")

/-- The guidance text printed when no installed version matches. -/
def availableVersionsText (python_versions : List String) : String :=
  "Available versions: " ++
    joinSep ", " (python_versions.map (fun v => "\x27" ++ v ++ "\x27")) ++ ".\n" ++
    "See all installable versions with:\n\tpyenv install --list\n" ++
    "and install it with:\n\tpyenv install <PYTHON_VERSION>"

/-- The chained external command run on success: deactivate, clean the
virtual environment, set the local version, reinstall dependencies. -/
def switchCommand (pyenv_python_version : String) : String :=
  "source deactivate; git clean -fxd .venv && pyenv local " ++
    pyenv_python_version ++ " && poetry install"

/-- Embedding of the task `switch_python_version ctx version`. `pyenvStdout`
stands for the captured stdout of `pyenv versions --bare`. The initial
`print_header` call only touches the terminal and is not part of the
captured notices. `Except.error` models the uncaught `ValueError` raised by
the integer sort key inside `sorted` (before any matching or notice); the
`sorted(...)` call is modelled by the stable `insertionSort` under the
numeric-key order, and the `for` loop over the sorted versions by the fold
with `findStep`. -/
def switch_python_version (version : String) (pyenvStdout : String) :
    Except String SwitchResult :=
  match computeSortKeys (pyenvLines pyenvStdout) with
  | none => .error "ValueError: invalid literal for int() with base 10"
  | some _ =>
    match (List.insertionSort versionLe (pyenvLines pyenvStdout)).foldl
        (findStep version) (none, []) with
    | (none, outs) =>
      .ok
        { outputs := outs ++
            [.secho ("❌ No pyenv Python version matching Python " ++ version ++ " found.\n")
                .red,
              .print (availableVersionsText
                (List.insertionSort versionLe (pyenvLines pyenvStdout)))]
          raisedExit := true
          command := none }
    | (some pyenv_python_version, outs) =>
      .ok
        { outputs := outs
          raisedExit := false
          command := some (switchCommand pyenv_python_version) }

/-! ## Helper lemmas -/

theorem head?_dropWhile_false (p : α → Bool) (l : List α) :
    ∀ x, (l.dropWhile p).head? = some x → p x = false := by
  induction l with
  | nil => simp
  | cons a t ih =>
    intro x h
    rw [List.dropWhile_cons] at h
    split at h
    · exact ih x h
    · next hpa =>
      simp only [List.head?_cons, Option.some.injEq] at h
      rw [← h]
      simpa using hpa

theorem insertDir_mem_self (fs : DirState) (p : Path) : p ∈ insertDir fs p := by
  unfold insertDir
  split
  · assumption
  · exact List.mem_append_right _ (List.mem_singleton.mpr rfl)

theorem insertDir_eq_of_mem {fs : DirState} {p : Path} (h : p ∈ fs) : insertDir fs p = fs := by
  unfold insertDir
  exact if_pos h

theorem insertDir_nodup {fs : DirState} {p : Path} (h : fs.Nodup) : (insertDir fs p).Nodup := by
  unfold insertDir
  split
  · exact h
  · next hnm =>
    exact List.Nodup.append h (List.nodup_singleton p) (List.disjoint_singleton.mpr hnm)

theorem ensure_reports_dir_eq (fs : DirState) :
    ensure_reports_dir fs = insertDir fs ["reports"] := rfl

theorem countP_eq_one_of_nodup_of_mem {α : Type _} [DecidableEq α] {l : List α} {a : α}
    (nd : l.Nodup) (h : a ∈ l) : l.countP (fun q => q = a) = 1 := by
  induction l with
  | nil => cases h
  | cons b t ih =>
    rw [List.nodup_cons] at nd
    rw [List.countP_cons]
    rcases List.mem_cons.mp h with hba | hat
    · subst hba
      have h0 : t.countP (fun q => q = a) = 0 := by
        rw [List.countP_eq_zero]
        intro q hq
        simp only [decide_eq_true_eq]
        intro hqa
        exact nd.1 (hqa ▸ hq)
      simp [h0]
    · have hba : b ≠ a := fun hb => nd.1 (hb ▸ hat)
      simp [ih nd.2 hat, hba]

/-! ## Claims -/

/-- C7: in the project layout registry, the unit-test and integration-test
directories are subpaths of the tests directory; the invariant holds for the
process-wide `PROJECT_INFO` record, which is a constant of the embedding
(constructed once, never mutated). -/
theorem claim_C7_tests_subpaths :
    PROJECT_INFO.tests_directory <+: PROJECT_INFO.unit_tests_directory ∧
      PROJECT_INFO.tests_directory <+: PROJECT_INFO.integration_tests_directory :=
  ⟨⟨["unit"], rfl⟩, ⟨["integration"], rfl⟩⟩

/-- C8: `ensure_reports_dir` is idempotent: one call creates the reports
directory (and, in general, any missing parents), a second call on the
resulting state is a no-op without error, and on any duplicate-free starting
state the result contains the reports directory exactly once. -/
theorem claim_C8_idempotent (fs : DirState) (hnd : fs.Nodup) :
    ensure_reports_dir (ensure_reports_dir fs) = ensure_reports_dir fs ∧
      PROJECT_INFO.reports_directory ∈ ensure_reports_dir fs ∧
      (ensure_reports_dir fs).countP (fun q => q = PROJECT_INFO.reports_directory) = 1 ∧
      (ensure_reports_dir fs).Nodup := by
  rw [ensure_reports_dir_eq, ensure_reports_dir_eq]
  have hmem : (["reports"] : Path) ∈ insertDir fs ["reports"] := insertDir_mem_self fs _
  have hnd2 : (insertDir fs ["reports"]).Nodup := insertDir_nodup hnd
  refine ⟨insertDir_eq_of_mem hmem, hmem, ?_, hnd2⟩
  exact countP_eq_one_of_nodup_of_mem hnd2 hmem

/-- Witness for C8 at the empty filesystem. -/
theorem claim_C8_witness :
    ensure_reports_dir (ensure_reports_dir []) = ensure_reports_dir [] ∧
      PROJECT_INFO.reports_directory ∈ ensure_reports_dir [] ∧
      (ensure_reports_dir []).countP (fun q => q = PROJECT_INFO.reports_directory) = 1 ∧
      (ensure_reports_dir []).Nodup :=
  claim_C8_idempotent [] List.nodup_nil

/-- C4: `read_contents` with the strip flag returns the contents with exactly
the trailing run of newline characters removed (and the result never ends in
a newline); with the flag off it returns the contents unchanged. Includes the
spec's `"line1\nline2\n"` example. -/
theorem claim_C4_read_contents (contents : String) :
    read_contents contents false = contents ∧
      (∃ k : Nat,
        contents.data = (read_contents contents true).data ++ List.replicate k '\n') ∧
      (∀ c, (read_contents contents true).data.getLast? = some c → c ≠ '\n') ∧
      read_contents "line1\nline2\n" true = "line1\nline2" ∧
      read_contents "line1\nline2\n" false = "line1\nline2\n" := by
  refine ⟨rfl, ?_, ?_, by decide, rfl⟩
  · refine ⟨(contents.data.reverse.takeWhile (fun c => decide (c = '\n'))).length, ?_⟩
    have hrep :
        contents.data.reverse.takeWhile (fun c => decide (c = '\n')) =
          List.replicate
            (contents.data.reverse.takeWhile (fun c => decide (c = '\n'))).length '\n' := by
      refine List.eq_replicate_of_mem ?_
      intro b hb
      simpa using List.mem_takeWhile_imp hb
    conv_lhs =>
      rw [← List.reverse_reverse contents.data,
        ← List.takeWhile_append_dropWhile (fun c => decide (c = '\n')) contents.data.reverse]
    rw [List.reverse_append]
    show (List.dropWhile _ _).reverse ++ _ = (rstripNewlines contents).data ++ _
    congr 1
    conv_lhs => rw [hrep]
    exact List.reverse_replicate _ _
  · intro c hc
    have h1 : (contents.data.reverse.dropWhile (fun c => decide (c = '\n'))).head? = some c := by
      have : (read_contents contents true).data =
          (contents.data.reverse.dropWhile (fun c => decide (c = '\n'))).reverse := rfl
      rw [this, List.getLast?_reverse] at hc
      exact hc
    have h2 := head?_dropWhile_false (fun c => decide (c = '\n')) contents.data.reverse c h1
    simpa using h2

/-- Witness for C4 on the spec's example file contents. -/
theorem claim_C4_witness :
    read_contents "line1\nline2\n" false = "line1\nline2\n" ∧
      read_contents "line1\nline2\n" true = "line1\nline2" :=
  ⟨(claim_C4_read_contents "line1\nline2\n").1,
    (claim_C4_read_contents "line1\nline2\n").2.2.2.1⟩

theorem mem_matchEnds_iff (s : List Char) (r : Regex) :
    ∀ i j : Nat, j ∈ matchEnds s r i ↔ RMatch s r i j := by
  induction r with
  | emptyStr =>
    intro i j
    simp only [matchEnds, List.mem_singleton]
    constructor
    · rintro rfl
      exact RMatch.emptyStr j
    · intro h
      cases h
      rfl
  | char c =>
    intro i j
    constructor
    · intro h
      simp only [matchEnds] at h
      split at h
      · next hget =>
        simp only [List.mem_singleton] at h
        subst h
        exact RMatch.char c i hget
      · simp at h
    · intro h
      cases h
      simp_all [matchEnds]
  | dot =>
    intro i j
    constructor
    · intro h
      simp only [matchEnds] at h
      split at h
      · next hlt =>
        simp only [List.mem_singleton] at h
        subst h
        exact RMatch.dot i hlt
      · simp at h
    · intro h
      cases h
      simp_all [matchEnds]
  | caret =>
    intro i j
    constructor
    · intro h
      simp only [matchEnds] at h
      split at h
      · next hz =>
        simp only [List.mem_singleton] at h
        subst hz
        subst h
        exact RMatch.caret
      · simp at h
    · intro h
      cases h
      simp [matchEnds]
  | dollar =>
    intro i j
    constructor
    · intro h
      simp only [matchEnds] at h
      split at h
      · next hcond =>
        simp only [List.mem_singleton] at h
        subst h
        rcases hcond with hend | ⟨hlen, hnl⟩
        · subst hend
          exact RMatch.dollarEnd
        · exact RMatch.dollarNewline j hlen hnl
      · simp at h
    · intro h
      cases h with
      | dollarEnd => simp [matchEnds]
      | dollarNewline _ h1 h2 =>
        unfold matchEnds
        rw [if_pos (Or.inr ⟨h1, h2⟩)]
        exact List.mem_singleton.mpr rfl
  | seq r t ihr iht =>
    intro i j
    simp only [matchEnds, List.mem_flatMap]
    constructor
    · rintro ⟨k, hk1, hk2⟩
      exact RMatch.seq r t i k j ((ihr i k).mp hk1) ((iht k j).mp hk2)
    · intro h
      cases h
      next k h1 h2 => exact ⟨k, (ihr i k).mpr h1, (iht k j).mpr h2⟩
  | alt r t ihr iht =>
    intro i j
    simp only [matchEnds, List.mem_append]
    constructor
    · rintro (h | h)
      · exact RMatch.altL r t i j ((ihr i j).mp h)
      · exact RMatch.altR r t i j ((iht i j).mp h)
    · intro h
      cases h with
      | altL _ _ _ _ h => exact Or.inl ((ihr i j).mpr h)
      | altR _ _ _ _ h => exact Or.inr ((iht i j).mpr h)

theorem reMatch_iff_exists (pattern : Regex) (messages : String) :
    reMatch pattern messages = true ↔ ∃ j, RMatch messages.data pattern 0 j := by
  unfold reMatch
  constructor
  · intro h
    have hne : matchEnds messages.data pattern 0 ≠ [] := by
      intro hnil
      rw [hnil] at h
      simp at h
    rcases List.exists_mem_of_ne_nil _ hne with ⟨j, hj⟩
    exact ⟨j, (mem_matchEnds_iff _ _ _ _).mp hj⟩
  · rintro ⟨j, hj⟩
    have hj2 := (mem_matchEnds_iff messages.data pattern 0 j).mpr hj
    cases hm : matchEnds messages.data pattern 0 with
    | nil =>
      rw [hm] at hj2
      cases hj2
    | cons a l => simp [hm]

/-- C1 counterexample: with the pattern that is just the literal `a` and the
message `"ab"`, the pattern matches only a strict prefix of the message (the
claim says the success notice then must not be emitted), yet
`format_messages` does emit the success notice, because `re.match` only
anchors the pattern at the start and does not require it to cover the whole
message. -/
theorem claim_C1_counterexample :
    format_messages "ab" (Regex.char 'a') =
        [OutputLine.secho "✔ No issues found." Color.green] ∧
      ¬ RMatch "ab".data (Regex.char 'a') 0 "ab".data.length := by
  constructor
  · rfl
  · intro h
    have h2 := (mem_matchEnds_iff "ab".data (Regex.char 'a') 0 "ab".data.length).mpr h
    revert h2
    decide

/-- C1 (amended): `format_messages` emits the success notice if and only if
the pattern matches some prefix of the message starting at its beginning
(`re.match` semantics, with `.` also matching newlines) — not necessarily
the entire message; otherwise it prints the raw message text unmodified. -/
theorem claim_C1_success_iff_prefix_match (messages : String) (pattern : Regex) :
    (format_messages messages pattern = [OutputLine.secho "✔ No issues found." Color.green] ↔
        ∃ j, RMatch messages.data pattern 0 j) ∧
      (¬ (∃ j, RMatch messages.data pattern 0 j) →
        format_messages messages pattern = [OutputLine.print messages]) := by
  by_cases hbm : reMatch pattern messages = true
  · have hex := (reMatch_iff_exists pattern messages).mp hbm
    have hfm : format_messages messages pattern =
        [OutputLine.secho "✔ No issues found." Color.green] := by
      simp [format_messages, hbm]
    exact ⟨by rw [hfm]; exact iff_of_true rfl hex, fun hnot => absurd hex hnot⟩
  · have hnex : ¬ ∃ j, RMatch messages.data pattern 0 j := fun hex =>
      hbm ((reMatch_iff_exists pattern messages).mpr hex)
    have hfm : format_messages messages pattern = [OutputLine.print messages] := by
      simp [format_messages, hbm]
    refine ⟨?_, fun _ => hfm⟩
    rw [hfm]
    constructor
    · intro heq
      simp at heq
    · intro hex
      exact absurd hex hnex

/-- Witness for the amended C1: the default pattern on `"some warning"`
matches no prefix, so the raw text is printed. -/
theorem claim_C1_witness :
    format_messages "some warning" defaultSuccessPattern =
      [OutputLine.print "some warning"] := by
  refine (claim_C1_success_iff_prefix_match "some warning" defaultSuccessPattern).2 ?_
  rintro ⟨j, hj⟩
  have h2 := (mem_matchEnds_iff "some warning".data defaultSuccessPattern 0 j).mpr hj
  have hev : matchEnds "some warning".data defaultSuccessPattern 0 = [] := by decide
  rw [hev] at h2
  cases h2

/-- C9: with the default pattern `"^$"`, `format_messages` emits the success
notice on the single-newline message `"\n"` — a non-empty message — because
the `$` anchor also matches immediately before a trailing newline
(`RMatch.dollarNewline`). -/
theorem claim_C9_newline_success :
    format_messages "\n" defaultSuccessPattern =
        [OutputLine.secho "✔ No issues found." Color.green] ∧
      ("\n" : String) ≠ "" ∧
      RMatch "\n".data defaultSuccessPattern 0 0 := by
  refine ⟨rfl, by decide, ?_⟩
  exact (mem_matchEnds_iff "\n".data defaultSuccessPattern 0 0).mp (by decide)

/-- C5: the target line width computed by `print_header` is the fixed 80
when the CI indicator variable is set and truthy (nonempty), and otherwise
the detected terminal column count (falling back to 80 when undetectable)
minus twice the length of the icon string (the icon after the trailing-space
append that `print_header` performs on nonempty icons), floored at 0; and
this width is exactly the one used to center the printed header line. -/
theorem claim_C5_padding_length (icon circleci : String) (detected : Option Nat) :
    ((headerPaddingLength circleci detected (headerIcon icon) : Int) =
        if circleci ≠ "" then 80
        else max ((detected.getD 80 : Int) - 2 * ((headerIcon icon).length : Int)) 0) ∧
      (∀ text, print_header text 2 icon circleci detected =
        some ("\n" ++
          pyCenter (" " ++ headerIcon icon ++ text ++ " " ++ headerIcon icon) '='
            (headerPaddingLength circleci detected (headerIcon icon)) ++ "\n")) := by
  constructor
  · unfold headerPaddingLength terminalColumns
    split
    · rfl
    · rw [Int.toNat_of_nonneg (le_max_right _ 0)]
      have hc : ((detected.getD 80 : Nat) : Int) - ((headerIcon icon).length : Int) * 2 =
          ((detected.getD 80 : Nat) : Int) - 2 * ((headerIcon icon).length : Int) := by ring
      rw [hc]
  · intro text
    rfl

/-- Witness for C5: icon `"🐍"` (length 2 after the space append), detected
terminal width 100, CI indicator unset: the padding length is 96. -/
theorem claim_C5_witness :
    ((headerPaddingLength "" (some 100) (headerIcon "🐍") : Int) =
        if ("" : String) ≠ "" then 80
        else max (((some 100 : Option Nat).getD 80 : Int) -
          2 * ((headerIcon "🐍").length : Int)) 0) ∧
      headerPaddingLength "" (some 100) (headerIcon "🐍") = 96 :=
  ⟨(claim_C5_padding_length "🐍" "" (some 100)).1, by decide⟩

/-- C6: `print_header` selects the border character `#` for level 1, `=` for
level 2 and `-` for level 3, and for every level outside `{1, 2, 3}` the
dict lookup fails (`KeyError`) before anything is printed, modelled by the
`none` result. -/
theorem claim_C6_level_characters (text icon circleci : String) (detected : Option Nat) :
    (_HEADER_LEVEL_CHARACTERS 1 = some '#' ∧ _HEADER_LEVEL_CHARACTERS 2 = some '=' ∧
        _HEADER_LEVEL_CHARACTERS 3 = some '-') ∧
      (∀ level : Int, level ≠ 1 → level ≠ 2 → level ≠ 3 →
        print_header text level icon circleci detected = none) := by
  refine ⟨⟨rfl, rfl, rfl⟩, ?_⟩
  intro level h1 h2 h3
  have hchar : _HEADER_LEVEL_CHARACTERS level = none := by
    unfold _HEADER_LEVEL_CHARACTERS
    rw [if_neg h1, if_neg h2, if_neg h3]
  simp [print_header, hchar]

/-- Witness for C6 at level 5. -/
theorem claim_C6_witness : print_header "Build" 5 "" "" none = none :=
  (claim_C6_level_characters "Build" "" "" none).2 5 (by decide) (by decide) (by decide)

theorem keyLe_refl (k : List Int) : keyLe k k = true := by
  induction k with
  | nil => rfl
  | cons a as ih =>
    unfold keyLe
    rw [if_neg (lt_irrefl a), if_neg (lt_irrefl a)]
    exact ih

theorem keyLe_total (k1 k2 : List Int) : keyLe k1 k2 = true ∨ keyLe k2 k1 = true := by
  induction k1 generalizing k2 with
  | nil => left; rfl
  | cons a as ih =>
    cases k2 with
    | nil => right; rfl
    | cons b bs =>
      unfold keyLe
      rcases lt_trichotomy a b with h | h | h
      · left
        rw [if_pos h]
      · subst h
        simp only [if_neg (lt_irrefl a)]
        exact ih bs
      · right
        rw [if_pos h]

theorem keyLe_trans (k1 : List Int) :
    ∀ k2 k3, keyLe k1 k2 = true → keyLe k2 k3 = true → keyLe k1 k3 = true := by
  induction k1 with
  | nil => intro k2 k3 _ _; rfl
  | cons a as ih =>
    intro k2 k3 h12 h23
    cases k2 with
    | nil => simp [keyLe] at h12
    | cons b bs =>
      cases k3 with
      | nil => simp [keyLe] at h23
      | cons c cs =>
        unfold keyLe at h12 h23 ⊢
        by_cases hab : a < b
        · by_cases hbc : b < c
          · rw [if_pos (lt_trans hab hbc)]
          · rw [if_neg hbc] at h23
            by_cases hcb : c < b
            · rw [if_pos hcb] at h23
              exact Bool.noConfusion h23
            · have hbceq : b = c := le_antisymm (not_lt.mp hcb) (not_lt.mp hbc)
              subst hbceq
              rw [if_pos hab]
        · rw [if_neg hab] at h12
          by_cases hba : b < a
          · rw [if_pos hba] at h12
            exact Bool.noConfusion h12
          · have habeq : a = b := le_antisymm (not_lt.mp hba) (not_lt.mp hab)
            subst habeq
            rw [if_neg (lt_irrefl a)] at h12
            by_cases hac : a < c
            · rw [if_pos hac]
            · rw [if_neg hac] at h23 ⊢
              by_cases hca : c < a
              · rw [if_pos hca] at h23
                exact Bool.noConfusion h23
              · rw [if_neg hca] at h23 ⊢
                exact ih bs cs h12 h23

theorem versionLe_refl (v : String) : versionLe v v :=
  keyLe_refl _

theorem versionLe_total : ∀ a b : String, versionLe a b ∨ versionLe b a :=
  fun _ _ => keyLe_total _ _

theorem versionLe_trans : ∀ a b c : String, versionLe a b → versionLe b c → versionLe a c :=
  fun _ _ _ hab hbc => keyLe_trans _ _ _ hab hbc

theorem foldl_findStep_no_match (version : String) (l : List String)
    (h : ∀ v ∈ l, pyStartsWith v version = false) :
    ∀ acc : Option String × List OutputLine, l.foldl (findStep version) acc = acc := by
  induction l with
  | nil => intro acc; rfl
  | cons a t ih =>
    intro acc
    rw [List.foldl_cons]
    have hstep : findStep version acc a = acc := by
      simp [findStep, h a (List.mem_cons_self a t)]
    rw [hstep]
    exact ih (fun v hv => h v (List.mem_cons_of_mem a hv)) acc

theorem foldl_findStep_max (version : String) :
    ∀ l : List String, l.Sorted versionLe →
      ∀ acc : Option String × List OutputLine,
        (∃ v ∈ l, pyStartsWith v version = true) →
        ∃ m, (l.foldl (findStep version) acc).1 = some m ∧ m ∈ l ∧
          pyStartsWith m version = true ∧
          ∀ v ∈ l, pyStartsWith v version = true → versionLe v m := by
  intro l
  induction l with
  | nil =>
    rintro _ acc ⟨v, hv, _⟩
    cases hv
  | cons a t ih =>
    intro hs acc hex
    rw [List.sorted_cons] at hs
    rw [List.foldl_cons]
    by_cases ha : pyStartsWith a version = true
    · have hstep : findStep version acc a =
          (some a, acc.2 ++
            [.secho ("✔ Found pyenv Python version \x27" ++ a ++ "\x27.\n") .green]) := by
        simp [findStep, ha]
      rw [hstep]
      by_cases htex : ∃ v ∈ t, pyStartsWith v version = true
      · rcases ih hs.2 _ htex with ⟨m, hm1, hm2, hm3, hm4⟩
        refine ⟨m, hm1, List.mem_cons_of_mem a hm2, hm3, ?_⟩
        intro v hv hvp
        rcases List.mem_cons.mp hv with rfl | hvt
        · exact hs.1 m hm2
        · exact hm4 v hvt hvp
      · have hnone : ∀ v ∈ t, pyStartsWith v version = false := by
          intro v hv
          by_contra hc
          exact htex ⟨v, hv, by simpa using hc⟩
        rw [foldl_findStep_no_match version t hnone _]
        refine ⟨a, rfl, List.mem_cons_self a t, ha, ?_⟩
        intro v hv hvp
        rcases List.mem_cons.mp hv with rfl | hvt
        · exact versionLe_refl v
        · rw [hnone v hvt] at hvp
          exact Bool.noConfusion hvp
    · have hstep : findStep version acc a = acc := by
        simp [findStep, ha]
      rw [hstep]
      have htex : ∃ v ∈ t, pyStartsWith v version = true := by
        rcases hex with ⟨v, hv, hvp⟩
        rcases List.mem_cons.mp hv with rfl | hvt
        · exact absurd hvp ha
        · exact ⟨v, hvt, hvp⟩
      rcases ih hs.2 acc htex with ⟨m, hm1, hm2, hm3, hm4⟩
      refine ⟨m, hm1, List.mem_cons_of_mem a hm2, hm3, ?_⟩
      intro v hv hvp
      rcases List.mem_cons.mp hv with rfl | hvt
      · exact absurd hvp ha
      · exact hm4 v hvt hvp

theorem computeSortKeys_isSome_of_all (l : List String)
    (h : ∀ v ∈ l, (versionSortKey v).isSome = true) : (computeSortKeys l).isSome = true := by
  induction l with
  | nil => rfl
  | cons a t ih =>
    rcases Option.isSome_iff_exists.mp (h a (List.mem_cons_self a t)) with ⟨k, hk⟩
    rcases Option.isSome_iff_exists.mp
      (ih (fun v hv => h v (List.mem_cons_of_mem a hv))) with ⟨ks, hks⟩
    unfold computeSortKeys
    rw [hk, hks]
    rfl

theorem computeSortKeys_eq_none_of_mem (l : List String) (v : String)
    (hv : v ∈ l) (hn : versionSortKey v = none) : computeSortKeys l = none := by
  induction l with
  | nil => cases hv
  | cons a t ih =>
    unfold computeSortKeys
    rcases List.mem_cons.mp hv with rfl | hvt
    · rw [hn]
    · rw [ih hvt]
      cases versionSortKey a <;> rfl

/-- C2: when no installed version string starts with the requested prefix,
the switcher prints the red not-found notice followed by the guidance text,
raises the `Exit` termination signal (the task's failure exit per the
spec's external-interface contract), and hands no external
deactivate/clean/set-version/reinstall command to `ctx.run`. -/
theorem claim_C2_no_match_exits (version pyenvStdout : String)
    (hparse : (computeSortKeys (pyenvLines pyenvStdout)).isSome = true)
    (hnomatch : ∀ v ∈ pyenvLines pyenvStdout, pyStartsWith v version = false) :
    switch_python_version version pyenvStdout =
      .ok
        { outputs :=
            [.secho ("❌ No pyenv Python version matching Python " ++ version ++ " found.\n")
                .red,
              .print (availableVersionsText
                (List.insertionSort versionLe (pyenvLines pyenvStdout)))]
          raisedExit := true
          command := none } := by
  rcases Option.isSome_iff_exists.mp hparse with ⟨ks, hks⟩
  have hnomatch2 : ∀ v ∈ List.insertionSort versionLe (pyenvLines pyenvStdout),
      pyStartsWith v version = false := by
    intro v hv
    exact hnomatch v ((List.mem_insertionSort versionLe).mp hv)
  have hscan := foldl_findStep_no_match version
    (List.insertionSort versionLe (pyenvLines pyenvStdout)) hnomatch2 (none, [])
  unfold switch_python_version
  rw [hks, hscan]
  rfl

/-- Witness for C2: requested version `"3.12"` absent from the installed
list `["3.6.1", "3.9.0"]`. -/
theorem claim_C2_witness :
    switch_python_version "3.12" "3.6.1\n3.9.0\n" =
      .ok
        { outputs :=
            [.secho ("❌ No pyenv Python version matching Python " ++ "3.12" ++ " found.\n")
                .red,
              .print (availableVersionsText
                (List.insertionSort versionLe (pyenvLines "3.6.1\n3.9.0\n")))]
          raisedExit := true
          command := none } :=
  claim_C2_no_match_exits "3.12" "3.6.1\n3.9.0\n" (by decide) (by decide)

/-- C3: with at least one installed version matching the requested prefix
(and every listed version numerically parseable), the switcher runs the
chained external command on a selected version that matches the prefix and
is greatest in the numeric sort-key order among all matches — the last match
found while scanning the numerically sorted list. -/
theorem claim_C3_selects_greatest (version pyenvStdout : String)
    (hparse : (computeSortKeys (pyenvLines pyenvStdout)).isSome = true)
    (hmatch : ∃ v ∈ pyenvLines pyenvStdout, pyStartsWith v version = true) :
    ∃ res m, switch_python_version version pyenvStdout = .ok res ∧
      res.raisedExit = false ∧
      res.command = some (switchCommand m) ∧
      m ∈ pyenvLines pyenvStdout ∧
      pyStartsWith m version = true ∧
      ∀ v ∈ pyenvLines pyenvStdout, pyStartsWith v version = true → versionLe v m := by
  rcases Option.isSome_iff_exists.mp hparse with ⟨ks, hks⟩
  haveI : IsTotal String versionLe := ⟨versionLe_total⟩
  haveI : IsTrans String versionLe := ⟨versionLe_trans⟩
  have hsorted : (List.insertionSort versionLe (pyenvLines pyenvStdout)).Sorted versionLe :=
    List.sorted_insertionSort versionLe (pyenvLines pyenvStdout)
  have hmatch2 : ∃ v ∈ List.insertionSort versionLe (pyenvLines pyenvStdout),
      pyStartsWith v version = true := by
    rcases hmatch with ⟨v, hv, hvp⟩
    exact ⟨v, (List.mem_insertionSort versionLe).mpr hv, hvp⟩
  rcases foldl_findStep_max version _ hsorted (none, []) hmatch2 with ⟨m, hm1, hm2, hm3, hm4⟩
  rcases hscan : (List.insertionSort versionLe (pyenvLines pyenvStdout)).foldl
      (findStep version) (none, []) with ⟨o, outs⟩
  rw [hscan] at hm1
  simp only at hm1
  subst hm1
  refine ⟨{ outputs := outs, raisedExit := false, command := some (switchCommand m) }, m,
    ?_, rfl, rfl, (List.mem_insertionSort versionLe).mp hm2, hm3, ?_⟩
  · unfold switch_python_version
    rw [hks, hscan]
  · intro v hv hvp
    exact hm4 v ((List.mem_insertionSort versionLe).mpr hv) hvp

/-- Witness for C3 on the spec's example: installed `["3.6.1", "3.6.9",
"3.9.0"]`, requested `"3.6"`; additionally pins the selected version to
`"3.6.9"` by evaluating the embedding. -/
theorem claim_C3_witness :
    (∃ res m, switch_python_version "3.6" "3.6.1\n3.6.9\n3.9.0\n" = .ok res ∧
      res.raisedExit = false ∧
      res.command = some (switchCommand m) ∧
      m ∈ pyenvLines "3.6.1\n3.6.9\n3.9.0\n" ∧
      pyStartsWith m "3.6" = true ∧
      ∀ v ∈ pyenvLines "3.6.1\n3.6.9\n3.9.0\n", pyStartsWith v "3.6" = true → versionLe v m) ∧
    switch_python_version "3.6" "3.6.1\n3.6.9\n3.9.0\n" =
      .ok
        { outputs :=
            [.secho ("✔ Found pyenv Python version \x27" ++ "3.6.1" ++ "\x27.\n") .green,
              .secho ("✔ Found pyenv Python version \x27" ++ "3.6.9" ++ "\x27.\n") .green]
          raisedExit := false
          command := some (switchCommand "3.6.9") } :=
  ⟨claim_C3_selects_greatest "3.6" "3.6.1\n3.6.9\n3.9.0\n" (by decide) (by decide), rfl⟩

/-- C10: the switcher's sorting step is defined exactly when every non-empty
listed line parses as a dot-separated sequence of integers: if all lines
parse, the task completes with an outcome; if some line does not parse, the
integer sort key raises `ValueError` and the task fails before any prefix
matching or notice — modelled by the `Except.error` result carrying no
outputs at all. -/
theorem claim_C10_sort_key_failure (version pyenvStdout : String) :
    ((∀ v ∈ pyenvLines pyenvStdout, (versionSortKey v).isSome = true) →
        ∃ res, switch_python_version version pyenvStdout = .ok res) ∧
      ((∃ v ∈ pyenvLines pyenvStdout, versionSortKey v = none) →
        switch_python_version version pyenvStdout =
          .error "ValueError: invalid literal for int() with base 10") := by
  constructor
  · intro hall
    rcases Option.isSome_iff_exists.mp
      (computeSortKeys_isSome_of_all (pyenvLines pyenvStdout) hall) with ⟨ks, hks⟩
    rcases hscan : (List.insertionSort versionLe (pyenvLines pyenvStdout)).foldl
        (findStep version) (none, []) with ⟨o, outs⟩
    unfold switch_python_version
    rw [hks, hscan]
    cases o with
    | none => exact ⟨_, rfl⟩
    | some pv => exact ⟨_, rfl⟩
  · rintro ⟨v, hv, hvn⟩
    have hck := computeSortKeys_eq_none_of_mem (pyenvLines pyenvStdout) v hv hvn
    unfold switch_python_version
    rw [hck]

/-- Witness for C10: the list `["3.6.x", "3.9.0"]` contains a component with
a letter, so the task fails with the conversion error. -/
theorem claim_C10_witness :
    switch_python_version "3.6" "3.6.x\n3.9.0\n" =
      .error "ValueError: invalid literal for int() with base 10" :=
  (claim_C10_sort_key_failure "3.6" "3.6.x\n3.9.0\n").2 (by decide)

end TasksUtils
